import Mathlib

/-!
Verification of the outbound HTTP API client (`src/lib/utils/api.server.ts`).

The development shallowly embeds the client's pure logic:
* JavaScript runtime values that can appear as parsed response payloads
  (`JVal`) and as request bodies (`BodyVal`), with faithful models of
  `JSON.stringify`, `String(...)` conversion, and truthiness;
* the query-string builder `buildQueryString` over a `URLSearchParams`
  state model (`uspSet` / append semantics);
* the body serializer `serializeBody` for the url-encoded and multipart
  modes (`appendParam` / `appendFD` recursive flattening);
* header construction (`buildBaseHeaders`, `buildHeaders`) and the final
  object-literal merge with JS spread semantics (`objInsert`, `objSpread`);
* the response normalizer of `Api.request` (status-204 short-circuit,
  content-type driven parsing, multi-tier error-message extraction) and
  the catch-handler for thrown transport errors;
* the timeout/cancellation race at the transport boundary (`raceOutcome`),
  modelling `AbortController` + `fetch` + `setTimeout` platform behavior.

Strings are modelled as sequences of characters (JS code units); machine
numbers that appear (HTTP statuses, timeouts) are `Nat` / `Int`.
-/

/-- Lowercases one ASCII character, as `String.prototype.toLowerCase`
does for the ASCII range (the only range exercised by content types). -/
def lowerChar (c : Char) : Char :=
  if 'A' ≤ c && c ≤ 'Z' then Char.ofNat (c.toNat + 32) else c

/-- Models `String.prototype.toLowerCase` (ASCII range). -/
def lowerStr (s : String) : String := String.mk (s.data.map lowerChar)

/-- Character-list helper: does the list start with the given pattern? -/
def charsHavePrefixAt : List Char → List Char → Bool
  | _, [] => true
  | [], _ :: _ => false
  | c :: cs, p :: ps => c = p && charsHavePrefixAt cs ps

/-- Character-list helper: does the list contain the pattern as a
contiguous sublist? -/
def charsContain (s pat : List Char) : Bool :=
  charsHavePrefixAt s pat ||
    (match s with
     | [] => false
     | _ :: tl => charsContain tl pat)

/-- Models `String.prototype.includes`. -/
def strIncludes (s pat : String) : Bool := charsContain s.data pat.data

/-- Models `String.prototype.slice(0, n)`: the first at-most-`n`
characters of the string. -/
def jsSlice (s : String) (n : Nat) : String := String.mk (s.data.take n)

/-- Uppercase hexadecimal digit for a value below 16. -/
def hexDigit (n : Nat) : Char :=
  if n < 10 then Char.ofNat (48 + n) else Char.ofNat (55 + n)

/-- UTF-8 bytes of a code point, as byte values. -/
def utf8Bytes (n : Nat) : List Nat :=
  if n < 0x80 then [n]
  else if n < 0x800 then [0xC0 + n / 0x40, 0x80 + n % 0x40]
  else if n < 0x10000 then
    [0xE0 + n / 0x1000, 0x80 + (n / 0x40) % 0x40, 0x80 + n % 0x40]
  else
    [0xF0 + n / 0x40000, 0x80 + (n / 0x1000) % 0x40,
     0x80 + (n / 0x40) % 0x40, 0x80 + n % 0x40]

/-- Percent-encodes one byte as `%XY` with uppercase hex. -/
def percentByte (b : Nat) : String :=
  String.mk ['%', hexDigit (b / 16), hexDigit (b % 16)]

/-- Encodes one character under the `application/x-www-form-urlencoded`
serializer used by `URLSearchParams.toString`: alphanumerics and
`*`, `-`, `.`, `_` kept, space becomes `+`, everything else
percent-encoded bytewise. -/
def formEncodeChar (c : Char) : String :=
  if c.isAlphanum || c = '*' || c = '-' || c = '.' || c = '_' then
    String.mk [c]
  else if c = ' ' then "+"
  else String.join ((utf8Bytes c.toNat).map percentByte)

/-- Encodes a string under `application/x-www-form-urlencoded`. -/
def formEncodeStr (s : String) : String :=
  String.join (s.data.map formEncodeChar)

/-- Models `URLSearchParams.toString` on the parameter list held by a
`URLSearchParams` instance. -/
def formUrlEncode (pairs : List (String × String)) : String :=
  "&".intercalate (pairs.map (fun p => formEncodeStr p.1 ++ "=" ++ formEncodeStr p.2))

mutual
/-- JavaScript value as produced by `JSON.parse` (or `res.text()`):
`null`, booleans, numbers, strings, arrays and plain objects. `undefined`
cannot occur in a parsed payload, so it has no constructor here. -/
inductive JVal where
  | jnull
  | jbool (b : Bool)
  | jnum (n : Int)
  | jstr (s : String)
  | jarr (xs : JArr)
  | jobj (fs : JObj)
  deriving DecidableEq
/-- Array of `JVal`s (spine of a JS array). -/
inductive JArr where
  | nil
  | cons (hd : JVal) (tl : JArr)
  deriving DecidableEq
/-- Field list of a JS object: ordered key/value pairs. A JS object has
at most one value per key, so lookups take the first occurrence. -/
inductive JObj where
  | nil
  | cons (k : String) (v : JVal) (tl : JObj)
  deriving DecidableEq
end

/-- Property lookup `obj[key]` on a JS object: `some` the value if the
key is present, `none` (JS `undefined`) otherwise. -/
def jfind : JObj → String → Option JVal
  | .nil, _ => none
  | .cons k v tl, key => if k = key then some v else jfind tl key

/-- JS truthiness of a value: `null`, `false`, `0` and `""` are falsy;
every object and array (even empty) is truthy. -/
def truthy : JVal → Bool
  | .jnull => false
  | .jbool b => b
  | .jnum n => n != 0
  | .jstr s => s != ""
  | .jarr _ => true
  | .jobj _ => true

/-- Escapes one character for a JSON string literal, as `JSON.stringify`
does. -/
def jsonEscapeChar (c : Char) : String :=
  if c = '"' then "\\\""
  else if c = '\\' then "\\\\"
  else if c = '\n' then "\\n"
  else if c = '\t' then "\\t"
  else if c = '\r' then "\\r"
  else if c.toNat < 0x20 then
    "\\u00" ++ String.mk [hexDigit (c.toNat / 16), hexDigit (c.toNat % 16)]
  else String.mk [c]

/-- JSON string literal for a string value. -/
def jsonQuote (s : String) : String :=
  "\"" ++ String.join (s.data.map jsonEscapeChar) ++ "\""

mutual
/-- Models `JSON.stringify` on parsed JS values. -/
def stringify : JVal → String
  | .jnull => "null"
  | .jbool true => "true"
  | .jbool false => "false"
  | .jnum n => toString n
  | .jstr s => jsonQuote s
  | .jarr xs => "[" ++ stringifyArr xs ++ "]"
  | .jobj fs => "\x7b" ++ stringifyObj fs ++ "\x7d"
/-- Comma-separated `JSON.stringify` forms of array elements. -/
def stringifyArr : JArr → String
  | .nil => ""
  | .cons hd .nil => stringify hd
  | .cons hd (.cons h2 tl) => stringify hd ++ "," ++ stringifyArr (.cons h2 tl)
/-- Comma-separated `"key":value` forms of object fields. -/
def stringifyObj : JObj → String
  | .nil => ""
  | .cons k v .nil => jsonQuote k ++ ":" ++ stringify v
  | .cons k v (.cons k2 v2 tl) =>
      jsonQuote k ++ ":" ++ stringify v ++ "," ++ stringifyObj (.cons k2 v2 tl)
end

mutual
/-- Models JS `String(x)` conversion: `null` renders as `"null"`,
arrays join their elements with commas (`Array.prototype.toString`),
plain objects render as `"[object Object]"`. -/
def jsToString : JVal → String
  | .jnull => "null"
  | .jbool true => "true"
  | .jbool false => "false"
  | .jnum n => toString n
  | .jstr s => s
  | .jarr xs => jsToStringArr xs
  | .jobj _ => "[object Object]"
/-- Models `Array.prototype.toString` (join with `","`; a `null`
element contributes the empty string). -/
def jsToStringArr : JArr → String
  | .nil => ""
  | .cons hd .nil => jsToStringElem hd
  | .cons hd (.cons h2 tl) =>
      jsToStringElem hd ++ "," ++ jsToStringArr (.cons h2 tl)
/-- Element conversion inside `Array.prototype.join`: like `String(x)`
except that a `null` element contributes the empty string. -/
def jsToStringElem : JVal → String
  | .jnull => ""
  | .jbool true => "true"
  | .jbool false => "false"
  | .jnum n => toString n
  | .jstr s => s
  | .jarr xs => jsToStringArr xs
  | .jobj _ => "[object Object]"
end

mutual
/-- JavaScript value as it can appear inside a request body handed to
`Api.serializeBody`: scalars, `null`/`undefined`, `Date` objects
(represented by their `toISOString` result), `File`/`Blob` binaries
(represented by their contents, plus the file name), arrays and plain
objects. -/
inductive BodyVal where
  | vundef
  | vnull
  | vstr (s : String)
  | vnum (n : Int)
  | vbool (b : Bool)
  | vdate (iso : String)
  | vfile (contents : String) (name : String)
  | vblob (contents : String)
  | varr (xs : BodyList)
  | vobj (fs : BodyFields)
  deriving DecidableEq
/-- Array spine of body values. -/
inductive BodyList where
  | nil
  | cons (hd : BodyVal) (tl : BodyList)
  deriving DecidableEq
/-- Ordered field list of a plain-object body value. -/
inductive BodyFields where
  | nil
  | cons (k : String) (v : BodyVal) (tl : BodyFields)
  deriving DecidableEq
end

/-- Models JS `String(x)` for the scalar body values that reach the
final `params.append(key, String(value))` call. -/
def bodyScalarString : BodyVal → String
  | .vstr s => s
  | .vnum n => toString n
  | .vbool true => "true"
  | .vbool false => "false"
  | _ => ""

mutual
/-- Models the recursive `appendParam` closure of `Api.serializeBody` in
`urlencoded` mode, returning the `(key, value)` pairs appended to the
`URLSearchParams` accumulator, in order. Branches mirror the source:
`undefined`/`null` append `key=` (empty value); `Date` appends the ISO
string; arrays recurse under `key[]`; remaining objects recurse per
property under `key[subKey]` — a `File`/`Blob` falls into that branch
and contributes nothing, since `Object.entries` of a `File`/`Blob` is
empty; any other value appends `String(value)`. -/
def appendParam : String → BodyVal → List (String × String)
  | key, .vundef => [(key, "")]
  | key, .vnull => [(key, "")]
  | key, .vdate iso => [(key, iso)]
  | key, .varr xs => appendParamList (key ++ "[]") xs
  | key, .vobj fs => appendParamFields key fs
  | _, .vfile _ _ => []
  | _, .vblob _ => []
  | key, .vstr s => [(key, s)]
  | key, .vnum n => [(key, toString n)]
  | key, .vbool b => [(key, bodyScalarString (.vbool b))]
/-- Per-element recursion of `appendParam` over an array (`for (const v
of value) appendParam(key + "[]", v)`; the bracket suffix is already part
of the key passed in). -/
def appendParamList : String → BodyList → List (String × String)
  | _, .nil => []
  | key, .cons v tl => appendParam key v ++ appendParamList key tl
/-- Per-property recursion of `appendParam` over a nested object
(`appendParam(key + "[" + subKey + "]", subVal)`). -/
def appendParamFields : String → BodyFields → List (String × String)
  | _, .nil => []
  | key, .cons sk v tl =>
      appendParam (key ++ "[" ++ sk ++ "]") v ++ appendParamFields key tl
end

/-- Entry of a `FormData` payload: a plain string field, a file with a
name, or a raw blob. -/
inductive FormEntry where
  | fstr (s : String)
  | ffile (contents : String) (name : String)
  | fblob (contents : String)
  deriving DecidableEq

mutual
/-- Models the recursive `appendFD` closure of `Api.serializeBody` in
`form` (multipart) mode, returning the entries appended to the
`FormData` accumulator, in order. Branches mirror the source:
`undefined`/`null` append an empty string; a `File` is appended with its
name (defaulting to `"file"` when the name is empty/falsy); a `Blob` is
appended directly; `Date` appends the ISO string; arrays recurse under
`key[]`; nested objects recurse per property under `key[subKey]`; any
other value appends `String(value)`. -/
def appendFD : String → BodyVal → List (String × FormEntry)
  | key, .vundef => [(key, .fstr "")]
  | key, .vnull => [(key, .fstr "")]
  | key, .vfile contents name =>
      [(key, .ffile contents (if name = "" then "file" else name))]
  | key, .vblob contents => [(key, .fblob contents)]
  | key, .vdate iso => [(key, .fstr iso)]
  | key, .varr xs => appendFDList (key ++ "[]") xs
  | key, .vobj fs => appendFDFields key fs
  | key, .vstr s => [(key, .fstr s)]
  | key, .vnum n => [(key, .fstr (toString n))]
  | key, .vbool b => [(key, .fstr (bodyScalarString (.vbool b)))]
/-- Per-element recursion of `appendFD` over an array. -/
def appendFDList : String → BodyList → List (String × FormEntry)
  | _, .nil => []
  | key, .cons v tl => appendFD key v ++ appendFDList key tl
/-- Per-property recursion of `appendFD` over a nested object. -/
def appendFDFields : String → BodyFields → List (String × FormEntry)
  | _, .nil => []
  | key, .cons sk v tl =>
      appendFD (key ++ "[" ++ sk ++ "]") v ++ appendFDFields key tl
end

/-- Top-level loop of `Api.serializeBody` in `urlencoded` mode over
`Object.entries(body)`: each top-level property is flattened by
`appendParam` under its own (unbracketed) key. -/
def serializeUrlPairs : BodyFields → List (String × String)
  | .nil => []
  | .cons k v tl => appendParam k v ++ serializeUrlPairs tl

/-- Top-level loop of `Api.serializeBody` in `form` mode over
`Object.entries(body)`. -/
def serializeFDPairs : BodyFields → List (String × FormEntry)
  | .nil => []
  | .cons k v tl => appendFD k v ++ serializeFDPairs tl

/-- Body argument of `Api.serializeBody` in `urlencoded` mode: either an
already-encoded `URLSearchParams` instance (passed through by
`body.toString()`) or a plain object to be flattened. -/
inductive UrlBody where
  | preEncoded (pairs : List (String × String))
  | obj (fs : BodyFields)

/-- Models `Api.serializeBody` in `urlencoded` mode, at the level of the
parameter list held by the resulting `URLSearchParams` (its
`toString` rendering is `formUrlEncode`). -/
def serializeBodyUrl : UrlBody → List (String × String)
  | .preEncoded pairs => pairs
  | .obj fs => serializeUrlPairs fs

/-- Body argument of `Api.serializeBody` in `form` mode: either a
prebuilt `FormData` instance (passed through unchanged) or a plain
object to be flattened. -/
inductive FormBody where
  | preBuilt (entries : List (String × FormEntry))
  | obj (fs : BodyFields)

/-- Models `Api.serializeBody` in `form` mode, at the level of the entry
list held by the resulting `FormData`. -/
def serializeBodyForm : FormBody → List (String × FormEntry)
  | .preBuilt entries => entries
  | .obj fs => serializeFDPairs fs

mutual
/-- A body value is binary-free when it contains no `File` or `Blob`
anywhere. -/
def binaryFreeV : BodyVal → Bool
  | .vfile _ _ => false
  | .vblob _ => false
  | .varr xs => binaryFreeL xs
  | .vobj fs => binaryFreeF fs
  | _ => true
/-- Binary-freeness of an array of body values. -/
def binaryFreeL : BodyList → Bool
  | .nil => true
  | .cons v tl => binaryFreeV v && binaryFreeL tl
/-- Binary-freeness of an object field list. -/
def binaryFreeF : BodyFields → Bool
  | .nil => true
  | .cons _ v tl => binaryFreeV v && binaryFreeF tl
end

/-- Scalar query-parameter value (`QueryPrimitive` in the source):
string, number, boolean, `null` or `undefined`. -/
inductive QPrim where
  | qstr (s : String)
  | qnum (n : Int)
  | qbool (b : Bool)
  | qnull
  | qundef
  deriving DecidableEq

/-- Models the loose-equality test `value == null`, true exactly for
`null` and `undefined`. -/
def QPrim.isNullish : QPrim → Bool
  | .qnull => true
  | .qundef => true
  | _ => false

/-- Models JS `String(x)` on a query primitive. -/
def QPrim.toJs : QPrim → String
  | .qstr s => s
  | .qnum n => toString n
  | .qbool true => "true"
  | .qbool false => "false"
  | .qnull => "null"
  | .qundef => "undefined"

/-- Query-parameter value: a primitive or an array of primitives
(`QueryPrimitive | QueryPrimitive[]` in the source). -/
inductive QVal where
  | prim (p : QPrim)
  | arr (xs : List QPrim)
  deriving DecidableEq

/-- Models `URLSearchParams.append`: adds the pair at the end. -/
def uspAppend (st : List (String × String)) (k v : String) :
    List (String × String) :=
  st ++ [(k, v)]

/-- Removes every pair with the given key. -/
def removeKey : List (String × String) → String → List (String × String)
  | [], _ => []
  | (k', v') :: tl, k =>
      if k' = k then removeKey tl k else (k', v') :: removeKey tl k

/-- Models `URLSearchParams.set`: replaces the first pair with the key
in place, deletes the other pairs with that key, appends if absent. -/
def uspSet : List (String × String) → String → String → List (String × String)
  | [], k, v => [(k, v)]
  | (k', v') :: tl, k, v =>
      if k' = k then (k, v) :: removeKey tl k else (k', v') :: uspSet tl k v

/-- One iteration of the `Object.entries(params).forEach` loop of
`buildQueryString`: nullish scalars are skipped, arrays append each
non-nullish element, other scalars are `set`. -/
def queryStep (st : List (String × String)) : String × QVal → List (String × String)
  | (k, .prim p) => if p.isNullish then st else uspSet st k p.toJs
  | (k, .arr xs) =>
      xs.foldl (fun s v => if v.isNullish then s else uspAppend s k v.toJs) st

/-- Parameter list accumulated by `buildQueryString` in its
`URLSearchParams` before rendering. -/
def buildQueryPairs (params : List (String × QVal)) : List (String × String) :=
  params.foldl queryStep []

/-- Models `buildQueryString`: renders the accumulated parameters and
prefixes `?` when nonempty. -/
def buildQueryString (params : List (String × QVal)) : String :=
  let qs := formUrlEncode (buildQueryPairs params)
  if qs = "" then "" else "?" ++ qs

/-- Contribution of a single `(key, value)` query entry, in
specification shape: used to characterize `buildQueryPairs`. -/
def entryPairs : String × QVal → List (String × String)
  | (k, .prim p) => if p.isNullish then [] else [(k, p.toJs)]
  | (k, .arr xs) =>
      (xs.filter (fun p => !p.isNullish)).map (fun p => (k, p.toJs))

/-- Body serialization mode of a client (`ApiMode` in the source). -/
inductive ApiMode where
  | json
  | form
  | urlencoded
  deriving DecidableEq

/-- First-occurrence lookup in a header/parameter association list
(property read on a JS object built with unique keys). -/
def hFind : List (String × String) → String → Option String
  | [], _ => none
  | (k', v') :: tl, k => if k' = k then some v' else hFind tl k

/-- Models JS property assignment `obj[k] = v` on an object represented
as an ordered field list: an existing key keeps its position and gets the
new value, a new key is appended. -/
def objInsert : List (String × String) → String → String → List (String × String)
  | [], k, v => [(k, v)]
  | (k', v') :: tl, k, v =>
      if k' = k then (k, v) :: tl else (k', v') :: objInsert tl k v

/-- Models the JS object-spread `(dst := ) dst ∪ src` where later keys
override earlier ones in place: each field of `src` is assigned onto the
accumulated object in order. -/
def objSpread (dst src : List (String × String)) : List (String × String) :=
  src.foldl (fun st kv => objInsert st kv.1 kv.2) dst

/-- Models `Api.buildBaseHeaders`: always `Accept: application/json`;
`Content-Type` only for the `json` and `urlencoded` modes. -/
def buildBaseHeaders (mode : ApiMode) : List (String × String) :=
  [("Accept", "application/json")] ++
    (match mode with
     | .json => [("Content-Type", "application/json")]
     | .urlencoded => [("Content-Type", "application/x-www-form-urlencoded")]
     | .form => [])

/-- Models `Api.buildHeaders`: base headers plus a bearer
`Authorization` header when a token is supplied. -/
def buildHeaders (mode : ApiMode) (token : Option String) : List (String × String) :=
  buildBaseHeaders mode ++
    (match token with
     | some t => [("Authorization", "Bearer " ++ t)]
     | none => [])

/-- Forced caching directive applied last in `Api.request`. -/
def noCacheValue : String := "no-store, max-age=0"

/-- Models the header object literal of `Api.request`:
`((\x7b ...baseHeaders, ...fetchInit?.headers, Cache-Control: ... \x7d))` —
an empty object spread with the base headers, then the caller headers,
then the forced `Cache-Control` assignment. -/
def finalHeaders (mode : ApiMode) (token : Option String)
    (callerHeaders : List (String × String)) : List (String × String) :=
  objInsert (objSpread (objSpread [] (buildHeaders mode token)) callerHeaders)
    "Cache-Control" noCacheValue

/-- Thrown JS error as observed by the catch clause of `Api.request`:
its `name` and `message` properties. -/
structure JsError where
  name : String
  message : String
  deriving DecidableEq

/-- Raw HTTP response at the transport boundary: status code, status
text, `content-type` header (absent modelled as `none`), and the results
of `res.json()` / `res.text()` (either of which may reject). -/
structure RawResponse where
  status : Nat
  statusText : String
  contentType : Option String
  jsonResult : Except Unit JVal
  textResult : Except Unit String

/-- Error member of a failure envelope (`ApiError` in the source).
`message` is kept as a raw JS value because the source stores whatever
the extraction produced without coercion. -/
structure ApiErr where
  status : Nat
  message : JVal
  detail : Option JVal
  deriving DecidableEq

/-- Response envelope (`ApiResponse` in the source): `data` only on
success, `error` only on failure, `message` always set by `Api.request`. -/
structure Resp where
  success : Bool
  data : Option JVal
  message : JVal
  error : Option ApiErr
  deriving DecidableEq

/-- Conversion of a `JVal` array to a Lean list, for iteration. -/
def JArr.toList : JArr → List JVal
  | .nil => []
  | .cons hd tl => hd :: tl.toList

/-- Per-element mapping inside the `detail`-array branch of
`Api.request`: a string element is used directly; otherwise
`item?.msg || JSON.stringify(item)` — the `msg` property if it is
present and truthy, else the serialized form of the element. -/
def elemMsgVal (item : JVal) : JVal :=
  match item with
  | .jstr s => .jstr s
  | _ =>
    match (match item with | .jobj fs => jfind fs "msg" | _ => none) with
    | some m => if truthy m then m else .jstr (stringify item)
    | none => .jstr (stringify item)

/-- Message for an array-valued `detail`: mapped element messages joined
with `"; "`. -/
def detailArrayMessage (items : JArr) : String :=
  "; ".intercalate (items.toList.map (fun it => jsToString (elemMsgVal it)))

/-- Message for a `detail` of JS type `object` (including `null`):
`detail?.msg || JSON.stringify(detail)`. -/
def detailObjMessage (d : JVal) : JVal :=
  match (match d with | .jobj fs => jfind fs "msg" | _ => none) with
  | some m => if truthy m then m else .jstr (stringify d)
  | none => .jstr (stringify d)

/-- Error-message and detail extraction of `Api.request` for a failing
response, over the parsed payload. Mirrors the source branches:
an object payload with a `detail` key takes the detail branch (array /
string / `typeof 'object'`, with a numeric or boolean `detail` leaving
the default message); else an object payload with a `message` key uses
`String(message)`; else a string payload is truncated to 300 characters;
else the default `statusText || "Request failed"`. A payload that is a
JS array enters the source's object branch but has neither key, so it
falls through to the default, as the catch-all arm here does. -/
def failMessageDetail (statusText : String) (parsed : JVal) : JVal × Option JVal :=
  let defaultMsg : JVal :=
    .jstr (if statusText = "" then "Request failed" else statusText)
  match parsed with
  | .jobj fs =>
    match jfind fs "detail" with
    | some d =>
      let msg : JVal :=
        match d with
        | .jarr items => .jstr (detailArrayMessage items)
        | .jstr s => .jstr s
        | .jnull => detailObjMessage .jnull
        | .jobj fs' => detailObjMessage (.jobj fs')
        | _ => defaultMsg
      (msg, some d)
    | none =>
      match jfind fs "message" with
      | some m => (.jstr (jsToString m), none)
      | none => (defaultMsg, none)
  | .jstr s => (.jstr (jsSlice s 300), none)
  | _ => (defaultMsg, none)

/-- Failure envelope of `Api.request` for a non-ok, non-204 response:
the extracted message is mirrored at the top level and inside `error`,
and the raw `detail` is carried along. -/
def failureEnvelope (status : Nat) (statusText : String) (parsed : JVal) : Resp :=
  let md := failMessageDetail statusText parsed
  { success := false, data := none, message := md.1,
    error := some { status := status, message := md.1, detail := md.2 } }

/-- Success envelope of `Api.request`: raw parsed payload as `data`,
message `parsed?.message || "OK"`. -/
def successEnvelope (parsed : JVal) : Resp :=
  let msg : JVal :=
    match (match parsed with | .jobj fs => jfind fs "message" | _ => none) with
    | some v => if truthy v then v else .jstr "OK"
    | none => .jstr "OK"
  { success := true, data := some parsed, message := msg, error := none }

/-- Content-type driven body parsing of `Api.request`: a content type
containing `application/json` (case-insensitively) parses as JSON, any
other reads text; a rejection of either reader degrades to `null`. -/
def parseBody (res : RawResponse) : JVal :=
  let ct := lowerStr (res.contentType.getD "")
  if strIncludes ct "application/json" then
    match res.jsonResult with
    | .ok v => v
    | .error _ => .jnull
  else
    match res.textResult with
    | .ok s => .jstr s
    | .error _ => .jnull

/-- Models `Response.ok`: status in the inclusive range 200–299. -/
def resOk (status : Nat) : Bool := 200 ≤ status && status ≤ 299

/-- Response-side normalization of `Api.request`: 204 short-circuits to
a synthetic success envelope without touching the body; otherwise the
body is parsed and wrapped as success or failure by status. -/
def handleResponse (res : RawResponse) : Resp :=
  if res.status = 204 then
    { success := true, data := some (.jobj .nil),
      message := .jstr "No Content", error := none }
  else
    let parsed := parseBody res
    if resOk res.status then successEnvelope parsed
    else failureEnvelope res.status res.statusText parsed

/-- Catch clause of `Api.request`: an `AbortError` maps to
`"Request aborted"`, any other thrown error to its message or
`"Network error"` when that is empty/falsy; status sentinel 0. -/
def handleCatch (e : JsError) : Resp :=
  let msg :=
    if e.name = "AbortError" then "Request aborted"
    else if e.message = "" then "Network error" else e.message
  { success := false, data := none, message := .jstr msg,
    error := some { status := 0, message := .jstr msg, detail := none } }

/-- Outcome of the awaited `fetch` call: a response, or a thrown error
(network failure, abort, or any other exception raised inside the `try`
block, e.g. by serialization). -/
inductive FetchOutcome where
  | ok (res : RawResponse)
  | thrown (e : JsError)

/-- Result of one `Api.request` call together with the timer trace:
whether a timeout timer was scheduled and whether it was cleared. -/
structure RequestResult where
  resp : Resp
  timerScheduled : Bool
  timerCleared : Bool

/-- Models `Api.request`. The effective timeout is the per-call override
or the client default (`fetchInit?.timeoutMs ?? this.defaultTimeoutMs`);
a timer is scheduled iff it is truthy and strictly positive
(`timeoutMs && timeoutMs > 0`). Header construction and body
serialization affect only the outbound fetch, which is abstracted by
`outcome` (they are modelled separately by `finalHeaders` and
`serializeBodyUrl`/`serializeBodyForm`); the envelope depends on the
outcome alone. The `finally` clause clears the timer exactly when one
was set, on every path. -/
def request (timeoutOverride : Option Int) (defaultTimeoutMs : Int)
    (outcome : FetchOutcome) : RequestResult :=
  let timeoutMs := timeoutOverride.getD defaultTimeoutMs
  let scheduled : Bool := decide (0 < timeoutMs)
  let resp :=
    match outcome with
    | .ok res => handleResponse res
    | .thrown e => handleCatch e
  { resp := resp, timerScheduled := scheduled, timerCleared := scheduled }

/-- Caller-side cancellation event: the instant the caller-supplied
signal fires and the abort reason it carries (`none` for the default
`AbortError` DOMException). -/
structure AbortEvent where
  time : Nat
  reason : Option JsError

/-- Default abort rejection of the platform (`AbortError` DOMException),
produced when `AbortController.abort()` is called without a reason. -/
def defaultAbortError : JsError :=
  { name := "AbortError", message := "The operation was aborted" }

/-- Models the platform transport boundary (spec §4.4/§6):
`fetch` observes the composite signal; if the timeout timer (scheduled
iff the effective timeout is positive, firing at that many ms) or the
caller signal fires strictly before the transport resolves, `fetch`
rejects with the corresponding abort reason — whichever source fires
first determines the reason; otherwise the response is returned. -/
def raceOutcome (timeoutMs : Int) (callerAbort : Option AbortEvent)
    (resolveAt : Nat) (res : RawResponse) : FetchOutcome :=
  let timeoutAt : Option Nat := if 0 < timeoutMs then some timeoutMs.toNat else none
  match timeoutAt, callerAbort with
  | none, none => .ok res
  | some t, none =>
      if t < resolveAt then .thrown defaultAbortError else .ok res
  | none, some c =>
      if c.time < resolveAt then .thrown (c.reason.getD defaultAbortError)
      else .ok res
  | some t, some c =>
      if c.time ≤ t && c.time < resolveAt then .thrown (c.reason.getD defaultAbortError)
      else if t < resolveAt then .thrown defaultAbortError
      else .ok res

/-- One `Api.request` call composed with the transport race: the
composite signal is driven by the effective timeout and the caller
signal, and the resulting fetch outcome feeds the normalizer. -/
def requestRaced (timeoutOverride : Option Int) (defaultTimeoutMs : Int)
    (callerAbort : Option AbortEvent) (resolveAt : Nat) (res : RawResponse) :
    RequestResult :=
  request timeoutOverride defaultTimeoutMs
    (raceOutcome (timeoutOverride.getD defaultTimeoutMs) callerAbort resolveAt res)

/-- Client configuration (`Api` class fields). -/
structure ApiClient where
  baseURL : String
  mode : ApiMode
  defaultTimeoutMs : Int

/-- Models the `Api` constructor: default timeout 30000 ms when the
option is not supplied. -/
def mkApi (baseURL : String) (mode : ApiMode) (timeoutMs : Option Int) : ApiClient :=
  { baseURL := baseURL, mode := mode, defaultTimeoutMs := timeoutMs.getD 30000 }

/-- Models `Api.get`: appends the encoded query string to the path and
delegates to `request` with only `(token)` in the init (so no timeout
override and no caller signal). The transport is abstracted by
`outcome`. -/
def ApiClient.get (c : ApiClient) (path : String) (params : List (String × QVal))
    (_token : Option String) (outcome : FetchOutcome) : RequestResult :=
  let _url := path ++ buildQueryString params
  request none c.defaultTimeoutMs outcome

/-- Models `Api.post`. -/
def ApiClient.post (c : ApiClient) (_path : String) (_body : BodyFields)
    (_token : Option String) (outcome : FetchOutcome) : RequestResult :=
  request none c.defaultTimeoutMs outcome

/-- Models `Api.put`. -/
def ApiClient.put (c : ApiClient) (_path : String) (_body : BodyFields)
    (_token : Option String) (outcome : FetchOutcome) : RequestResult :=
  request none c.defaultTimeoutMs outcome

/-- Models `Api.patch`. -/
def ApiClient.patch (c : ApiClient) (_path : String) (_body : BodyFields)
    (_token : Option String) (outcome : FetchOutcome) : RequestResult :=
  request none c.defaultTimeoutMs outcome

/-- Models `Api.delete`. -/
def ApiClient.delete (c : ApiClient) (_path : String)
    (_token : Option String) (outcome : FetchOutcome) : RequestResult :=
  request none c.defaultTimeoutMs outcome

/-- Models `Api.deleteWithBody`. -/
def ApiClient.deleteWithBody (c : ApiClient) (_path : String) (_body : BodyFields)
    (_token : Option String) (outcome : FetchOutcome) : RequestResult :=
  request none c.defaultTimeoutMs outcome

/-- The six public verb methods of the client. -/
inductive Verb where
  | get
  | post
  | put
  | patch
  | delete
  | deleteWithBody
  deriving DecidableEq

/-- Dispatch on a verb method with a common argument bundle. -/
def callVerb (c : ApiClient) (v : Verb) (path : String)
    (params : List (String × QVal)) (body : BodyFields)
    (token : Option String) (outcome : FetchOutcome) : RequestResult :=
  match v with
  | .get => c.get path params token outcome
  | .post => c.post path body token outcome
  | .put => c.put path body token outcome
  | .patch => c.patch path body token outcome
  | .delete => c.delete path token outcome
  | .deleteWithBody => c.deleteWithBody path body token outcome

/-- Reinterprets a url-encoded pair as a string-valued `FormData` entry,
for comparing the two serialization modes. -/
def strEntry (p : String × String) : String × FormEntry := (p.1, .fstr p.2)

/-- Sample 422 payload of the worked example: payload
`(detail := [(msg := "bad field"), "other"])`. -/
def examplePayload : JVal :=
  .jobj (.cons "detail"
    (.jarr (.cons (.jobj (.cons "msg" (.jstr "bad field") .nil))
      (.cons (.jstr "other") .nil))) .nil)

/-! Helper lemmas about the query-encoder state machine. -/

theorem entryPairs_key : ∀ (e : String × QVal) (pr : String × String),
    pr ∈ entryPairs e → pr.1 = e.1
  | (k, .prim p), pr, h => by
      by_cases hp : p.isNullish
      · simp [entryPairs, hp] at h
      · simp [entryPairs, hp] at h
        simp [h]
  | (_, .arr xs), pr, h => by
      simp only [entryPairs, List.mem_map] at h
      obtain ⟨p, _, rfl⟩ := h
      rfl

theorem uspSet_fresh : ∀ (st : List (String × String)) (k v : String),
    k ∉ st.map Prod.fst → uspSet st k v = st ++ [(k, v)]
  | [], _, _, _ => rfl
  | (k', v') :: tl, k, v, h => by
      simp only [List.map_cons, List.mem_cons, not_or] at h
      simp only [uspSet]
      rw [if_neg (fun hh => h.1 hh.symm), uspSet_fresh tl k v h.2]
      rfl

theorem foldl_appendFilter : ∀ (xs : List QPrim) (st : List (String × String)) (k : String),
    xs.foldl (fun s v => if v.isNullish then s else uspAppend s k v.toJs) st =
      st ++ (xs.filter (fun p => !p.isNullish)).map (fun p => (k, p.toJs))
  | [], st, k => by simp
  | x :: xs, st, k => by
      rw [List.foldl_cons]
      by_cases hx : x.isNullish
      · rw [if_pos hx, foldl_appendFilter xs st k]
        simp [List.filter_cons, hx]
      · rw [if_neg hx, foldl_appendFilter xs (uspAppend st k x.toJs) k]
        simp [uspAppend, List.filter_cons, hx, List.append_assoc]

theorem queryStep_eq : ∀ (st : List (String × String)) (e : String × QVal),
    e.1 ∉ st.map Prod.fst → queryStep st e = st ++ entryPairs e
  | st, (k, .prim p), h => by
      by_cases hp : p.isNullish
      · simp [queryStep, entryPairs, hp]
      · simp [queryStep, entryPairs, hp, uspSet_fresh st k p.toJs h]
  | st, (k, .arr xs), _ => by
      simp [queryStep, entryPairs, foldl_appendFilter xs st k]

theorem foldl_queryStep_eq : ∀ (params : List (String × QVal)) (st : List (String × String)),
    (params.map Prod.fst).Nodup →
    (∀ k ∈ params.map Prod.fst, k ∉ st.map Prod.fst) →
    params.foldl queryStep st = st ++ params.flatMap entryPairs
  | [], st, _, _ => by simp
  | e :: params, st, hnd, hfresh => by
      simp only [List.map_cons, List.nodup_cons] at hnd
      have h1 : e.1 ∉ st.map Prod.fst := hfresh e.1 (by simp)
      have hfresh' : ∀ k ∈ params.map Prod.fst, k ∉ (st ++ entryPairs e).map Prod.fst := by
        intro k hk
        simp only [List.map_append, List.mem_append, not_or]
        refine ⟨hfresh k (by simp [hk]), ?_⟩
        intro hmem
        obtain ⟨pr, hpr, hpr1⟩ := List.mem_map.mp hmem
        exact hnd.1 ((entryPairs_key e pr hpr ▸ hpr1) ▸ hk)
      rw [List.foldl_cons, queryStep_eq st e h1,
        foldl_queryStep_eq params (st ++ entryPairs e) hnd.2 hfresh']
      simp [List.flatMap_cons]

theorem buildQueryPairs_eq (params : List (String × QVal))
    (hnd : (params.map Prod.fst).Nodup) :
    buildQueryPairs params = params.flatMap entryPairs := by
  simpa [buildQueryPairs] using foldl_queryStep_eq params [] hnd (by simp)

theorem nodup_keys_val_unique : ∀ (l : List (String × QVal)) (k : String) (a b : QVal),
    (l.map Prod.fst).Nodup → (k, a) ∈ l → (k, b) ∈ l → a = b
  | [], _, _, _, _, ha, _ => by simp at ha
  | e :: l, k, a, b, hnd, ha, hb => by
      simp only [List.map_cons, List.nodup_cons] at hnd
      simp only [List.mem_cons] at ha hb
      rcases ha with rfl | ha
      · rcases hb with heq | hb
        · simp only [Prod.mk.injEq, true_and] at heq
          exact heq.symm
        · exact absurd (List.mem_map_of_mem Prod.fst hb) hnd.1
      · rcases hb with rfl | hb
        · exact absurd (List.mem_map_of_mem Prod.fst ha) hnd.1
        · exact nodup_keys_val_unique l k a b hnd.2 ha hb

theorem flatMap_filter_key : ∀ (params : List (String × QVal)) (k : String) (xs : List QPrim),
    (params.map Prod.fst).Nodup → (k, .arr xs) ∈ params →
    (params.flatMap entryPairs).filter (fun pr => pr.1 == k) = entryPairs (k, .arr xs)
  | [], _, _, _, hmem => by simp at hmem
  | e :: params, k, xs, hnd, hmem => by
      simp only [List.map_cons, List.nodup_cons] at hnd
      simp only [List.mem_cons] at hmem
      rw [List.flatMap_cons, List.filter_append]
      rcases hmem with rfl | hmem
      · have h1 : (entryPairs (k, QVal.arr xs)).filter (fun pr => pr.1 == k) =
            entryPairs (k, QVal.arr xs) :=
          List.filter_eq_self.mpr (fun pr hpr => by
            simp [entryPairs_key (k, QVal.arr xs) pr hpr])
        have h2 : (params.flatMap entryPairs).filter (fun pr => pr.1 == k) = [] := by
          apply List.filter_eq_nil_iff.mpr
          intro pr hpr
          obtain ⟨e', he', hpre⟩ := List.mem_flatMap.mp hpr
          simp only [beq_iff_eq]
          intro hEq
          refine hnd.1 ?_
          have hkey := entryPairs_key e' pr hpre
          rw [← hEq, hkey]
          exact List.mem_map_of_mem Prod.fst he'
        rw [h1, h2, List.append_nil]
      · have hk : k ∈ params.map Prod.fst := List.mem_map_of_mem Prod.fst hmem
        have h1 : (entryPairs e).filter (fun pr => pr.1 == k) = [] := by
          apply List.filter_eq_nil_iff.mpr
          intro pr hpr
          simp only [beq_iff_eq]
          intro hEq
          exact hnd.1 ((entryPairs_key e pr hpr ▸ hEq) ▸ hk)
        rw [h1, flatMap_filter_key params k xs hnd.2 hmem, List.nil_append]

/-- C3: in url-encoded mode (body not an already-encoded parameter set)
the serializer recursively flattens the body: a leaf scalar under key
`k` emits `k=value`; `null`/`undefined` emit `k=` with an empty value
(present, not omitted); a date-like value emits its ISO-8601 string; an
array element recurses under `k[]`; a nested object property `p`
recurses under `k[p]`; the output is the concatenation of the flattened
pairs; and `(a := (b := 1), c := [1,2])` serializes to
`a[b]=1&c[]=1&c[]=2`. -/
theorem urlencoded_flattening_rules :
    (∀ k s, appendParam k (.vstr s) = [(k, s)]) ∧
    (∀ k n, appendParam k (.vnum n) = [(k, toString n)]) ∧
    (∀ k b, appendParam k (.vbool b) = [(k, if b then "true" else "false")]) ∧
    (∀ k, appendParam k .vnull = [(k, "")]) ∧
    (∀ k, appendParam k .vundef = [(k, "")]) ∧
    (∀ k iso, appendParam k (.vdate iso) = [(k, iso)]) ∧
    (∀ k xs, appendParam k (.varr xs) = appendParamList (k ++ "[]") xs) ∧
    (∀ k v tl, appendParamList k (.cons v tl) = appendParam k v ++ appendParamList k tl) ∧
    (∀ k fs, appendParam k (.vobj fs) = appendParamFields k fs) ∧
    (∀ k sk v tl,
      appendParamFields k (.cons sk v tl) =
        appendParam (k ++ "[" ++ sk ++ "]") v ++ appendParamFields k tl) ∧
    (∀ k v tl, serializeUrlPairs (.cons k v tl) = appendParam k v ++ serializeUrlPairs tl) ∧
    serializeBodyUrl (.obj (.cons "a" (.vobj (.cons "b" (.vnum 1) .nil))
      (.cons "c" (.varr (.cons (.vnum 1) (.cons (.vnum 2) .nil))) .nil))) =
      [("a[b]", "1"), ("c[]", "1"), ("c[]", "2")] :=
  ⟨fun _ _ => rfl, fun _ _ => rfl, fun _ b => by cases b <;> rfl, fun _ => rfl, fun _ => rfl,
   fun _ _ => rfl, fun _ _ => rfl, fun _ _ _ => rfl, fun _ _ => rfl, fun _ _ _ _ => rfl,
   fun _ _ _ => rfl, rfl⟩

/-- C4: the query encoder omits every key whose value is a nullish
scalar, skips nullish elements inside arrays while appending the
remaining elements as repeated unbracketed `key=value` pairs, and
returns either the empty string or a string beginning with `?`.
(The input mapping is passed by value in this pure model, so it is
never mutated, by construction.) -/
theorem query_encoder_nullish_omitted_arrays_flattened :
    (∀ (params : List (String × QVal)) (k : String),
      (params.map Prod.fst).Nodup →
      ((k, QVal.prim .qnull) ∈ params ∨ (k, QVal.prim .qundef) ∈ params) →
      k ∉ (buildQueryPairs params).map Prod.fst) ∧
    (∀ (params : List (String × QVal)) (k : String) (xs : List QPrim),
      (params.map Prod.fst).Nodup → (k, QVal.arr xs) ∈ params →
      (buildQueryPairs params).filter (fun pr => pr.1 == k) =
        (xs.filter (fun p => !p.isNullish)).map (fun p => (k, p.toJs))) ∧
    (∀ params : List (String × QVal),
      buildQueryString params = "" ∨ ∃ rest, buildQueryString params = "?" ++ rest) := by
  refine ⟨?_, ?_, ?_⟩
  · intro params k hnd hmem hk
    rw [buildQueryPairs_eq params hnd] at hk
    obtain ⟨pr, hpr, hpr1⟩ := List.mem_map.mp hk
    obtain ⟨⟨ek, ev⟩, he, hpre⟩ := List.mem_flatMap.mp hpr
    have he1 : ek = k := by
      have h := entryPairs_key (ek, ev) pr hpre
      simp only at h
      rw [← h]
      exact hpr1
    subst he1
    rcases hmem with hm | hm
    · have hv := nodup_keys_val_unique params ek ev (.prim .qnull) hnd he hm
      subst hv
      simp [entryPairs, QPrim.isNullish] at hpre
    · have hv := nodup_keys_val_unique params ek ev (.prim .qundef) hnd he hm
      subst hv
      simp [entryPairs, QPrim.isNullish] at hpre
  · intro params k xs hnd hmem
    rw [buildQueryPairs_eq params hnd, flatMap_filter_key params k xs hnd hmem]
    rfl
  · intro params
    simp only [buildQueryString]
    by_cases h : formUrlEncode (buildQueryPairs params) = ""
    · left
      simp [h]
    · right
      exact ⟨formUrlEncode (buildQueryPairs params), by simp [h]⟩

/-- Witness for C4 at a concrete mapping with a null scalar and an array
containing a null element. -/
theorem query_encoder_witness :
    "a" ∉ (buildQueryPairs [("a", QVal.prim .qnull),
      ("b", QVal.arr [.qnum 1, .qnull])]).map Prod.fst ∧
    (buildQueryPairs [("a", QVal.prim .qnull),
      ("b", QVal.arr [.qnum 1, .qnull])]).filter (fun pr => pr.1 == "b") = [("b", "1")] ∧
    (buildQueryString [("a", QVal.prim .qnull), ("b", QVal.arr [.qnum 1, .qnull])] = "" ∨
      ∃ rest, buildQueryString [("a", QVal.prim .qnull),
        ("b", QVal.arr [.qnum 1, .qnull])] = "?" ++ rest) :=
  ⟨query_encoder_nullish_omitted_arrays_flattened.1 _ "a" (by decide) (Or.inl (by decide)),
   (query_encoder_nullish_omitted_arrays_flattened.2.1 _ "b" [.qnum 1, .qnull]
     (by decide) (by decide)).trans (by decide),
   query_encoder_nullish_omitted_arrays_flattened.2.2 _⟩

/-! Helper lemmas about JS object assignment and spread on header maps. -/

theorem hFind_objInsert_self : ∀ (st : List (String × String)) (k v : String),
    hFind (objInsert st k v) k = some v
  | [], k, v => by simp [objInsert, hFind]
  | (k', v') :: tl, k, v => by
      by_cases h : k' = k
      · simp [objInsert, h, hFind]
      · simp only [objInsert, h, if_false, hFind, if_neg h]
        exact hFind_objInsert_self tl k v

theorem hFind_objInsert_ne : ∀ (st : List (String × String)) (k v k' : String),
    k' ≠ k → hFind (objInsert st k v) k' = hFind st k'
  | [], k, v, k', hne => by
      have hne' : ¬ k = k' := fun h => hne h.symm
      simp only [objInsert, hFind, if_neg hne']
  | (k0, v0) :: tl, k, v, k', hne => by
      have hne' : ¬ k = k' := fun h => hne h.symm
      by_cases h : k0 = k
      · subst h
        simp only [objInsert, if_pos rfl, hFind, if_neg hne']
      · simp only [objInsert, if_neg h, hFind]
        by_cases h0 : k0 = k'
        · simp [h0]
        · simp only [if_neg h0]
          exact hFind_objInsert_ne tl k v k' hne

theorem hFind_objSpread_not_mem : ∀ (src dst : List (String × String)) (k : String),
    k ∉ src.map Prod.fst → hFind (objSpread dst src) k = hFind dst k
  | [], _, _, _ => rfl
  | (k0, v0) :: src, dst, k, h => by
      simp only [List.map_cons, List.mem_cons, not_or] at h
      show hFind (objSpread (objInsert dst k0 v0) src) k = hFind dst k
      rw [hFind_objSpread_not_mem src (objInsert dst k0 v0) k h.2,
        hFind_objInsert_ne dst k0 v0 k h.1]

theorem hFind_objSpread_mem : ∀ (src dst : List (String × String)) (k v : String),
    (src.map Prod.fst).Nodup → (k, v) ∈ src → hFind (objSpread dst src) k = some v
  | [], _, _, _, _, hmem => by simp at hmem
  | (k0, v0) :: src, dst, k, v, hnd, hmem => by
      simp only [List.map_cons, List.nodup_cons] at hnd
      simp only [List.mem_cons, Prod.mk.injEq] at hmem
      rcases hmem with ⟨rfl, rfl⟩ | hmem
      · show hFind (objSpread (objInsert dst k v) src) k = some v
        rw [hFind_objSpread_not_mem src (objInsert dst k v) k hnd.1,
          hFind_objInsert_self dst k v]
      · show hFind (objSpread (objInsert dst k0 v0) src) k = some v
        exact hFind_objSpread_mem src (objInsert dst k0 v0) k v hnd.2 hmem

theorem hFind_eq_none_iff : ∀ (l : List (String × String)) (k : String),
    hFind l k = none ↔ k ∉ l.map Prod.fst
  | [], k => by simp [hFind]
  | (k0, v0) :: tl, k => by
      by_cases h : k0 = k
      · simp [hFind, h]
      · simp only [hFind, if_neg h, List.map_cons, List.mem_cons, not_or]
        rw [hFind_eq_none_iff tl k]
        constructor
        · intro hnm
          exact ⟨fun hh => h hh.symm, hnm⟩
        · intro hh
          exact hh.2

theorem hFind_mem : ∀ (l : List (String × String)) (k v : String),
    hFind l k = some v → (k, v) ∈ l
  | [], _, _, h => by simp [hFind] at h
  | (k0, v0) :: tl, k, v, h => by
      by_cases hk : k0 = k
      · subst hk
        have hv : v0 = v := by simpa [hFind] using h
        subst hv
        exact List.mem_cons_self _ _
      · have h' : hFind tl k = some v := by simpa [hFind, hk] using h
        exact List.mem_cons_of_mem _ (hFind_mem tl k v h')

theorem hFind_objSpread_nil (src : List (String × String)) (k : String)
    (hnd : (src.map Prod.fst).Nodup) : hFind (objSpread [] src) k = hFind src k := by
  cases hs : hFind src k with
  | none =>
      rw [hFind_objSpread_not_mem src [] k ((hFind_eq_none_iff src k).mp hs)]
      rfl
  | some v => exact hFind_objSpread_mem src [] k v hnd (hFind_mem src k v hs)

theorem buildHeaders_keys_nodup (mode : ApiMode) (token : Option String) :
    ((buildHeaders mode token).map Prod.fst).Nodup := by
  cases mode <;> cases token <;> simp [buildHeaders, buildBaseHeaders]

/-- C5: the final header map has the fixed precedence mode defaults <
caller-supplied headers < forced no-cache directive: the forced
`Cache-Control: no-store, max-age=0` entry is present for every mode,
token and caller header set (even a caller-supplied conflicting cache
header); any other caller header overrides the mode-derived base
headers; and a base header not overridden by the caller survives. -/
theorem header_precedence_forced_no_cache :
    (∀ (mode : ApiMode) (token : Option String) (caller : List (String × String)),
      hFind (finalHeaders mode token caller) "Cache-Control" = some noCacheValue) ∧
    (∀ (mode : ApiMode) (token : Option String) (caller : List (String × String))
      (k v : String), (caller.map Prod.fst).Nodup → (k, v) ∈ caller →
      k ≠ "Cache-Control" → hFind (finalHeaders mode token caller) k = some v) ∧
    (∀ (mode : ApiMode) (token : Option String) (caller : List (String × String))
      (k : String), k ∉ caller.map Prod.fst → k ≠ "Cache-Control" →
      hFind (finalHeaders mode token caller) k = hFind (buildHeaders mode token) k) := by
  refine ⟨?_, ?_, ?_⟩
  · intro mode token caller
    exact hFind_objInsert_self _ "Cache-Control" noCacheValue
  · intro mode token caller k v hnd hmem hne
    rw [finalHeaders, hFind_objInsert_ne _ "Cache-Control" noCacheValue k hne]
    exact hFind_objSpread_mem caller _ k v hnd hmem
  · intro mode token caller k hmem hne
    rw [finalHeaders, hFind_objInsert_ne _ "Cache-Control" noCacheValue k hne,
      hFind_objSpread_not_mem caller _ k hmem,
      hFind_objSpread_nil _ k (buildHeaders_keys_nodup mode token)]

/-- Witness for C5: a json-mode client with a bearer token whose caller
headers include a conflicting cache header and a custom header. -/
theorem header_precedence_witness :
    hFind (finalHeaders .json (some "tok")
      [("Cache-Control", "max-age=60"), ("X-Req", "1")]) "Cache-Control" = some noCacheValue ∧
    hFind (finalHeaders .json (some "tok")
      [("Cache-Control", "max-age=60"), ("X-Req", "1")]) "X-Req" = some "1" ∧
    hFind (finalHeaders .json (some "tok")
      [("Cache-Control", "max-age=60"), ("X-Req", "1")]) "Accept" =
      hFind (buildHeaders .json (some "tok")) "Accept" :=
  ⟨header_precedence_forced_no_cache.1 .json (some "tok") _,
   header_precedence_forced_no_cache.2.1 .json (some "tok") _ "X-Req" "1"
     (by decide) (by decide) (by decide),
   header_precedence_forced_no_cache.2.2 .json (some "tok") _ "Accept"
     (by decide) (by decide)⟩

/-! Helper lemmas relating the two flattening serializers. -/

mutual
theorem appendFD_eq_appendParam : ∀ (k : String) (v : BodyVal),
    binaryFreeV v = true → appendFD k v = (appendParam k v).map strEntry
  | _, .vundef, _ => rfl
  | _, .vnull, _ => rfl
  | _, .vstr _, _ => rfl
  | _, .vnum _, _ => rfl
  | _, .vbool b, _ => by cases b <;> rfl
  | _, .vdate _, _ => rfl
  | _, .vfile _ _, h => by simp [binaryFreeV] at h
  | _, .vblob _, h => by simp [binaryFreeV] at h
  | k, .varr xs, h => by
      show appendFDList (k ++ "[]") xs = (appendParamList (k ++ "[]") xs).map strEntry
      exact appendFDList_eq (k ++ "[]") xs (by simpa [binaryFreeV] using h)
  | k, .vobj fs, h => by
      show appendFDFields k fs = (appendParamFields k fs).map strEntry
      exact appendFDFields_eq k fs (by simpa [binaryFreeV] using h)
theorem appendFDList_eq : ∀ (k : String) (xs : BodyList),
    binaryFreeL xs = true → appendFDList k xs = (appendParamList k xs).map strEntry
  | _, .nil, _ => rfl
  | k, .cons v tl, h => by
      have hv : binaryFreeV v = true := by
        simp only [binaryFreeL, Bool.and_eq_true] at h
        exact h.1
      have ht : binaryFreeL tl = true := by
        simp only [binaryFreeL, Bool.and_eq_true] at h
        exact h.2
      show appendFD k v ++ appendFDList k tl = _
      rw [appendFD_eq_appendParam k v hv, appendFDList_eq k tl ht]
      simp [appendParamList]
theorem appendFDFields_eq : ∀ (k : String) (fs : BodyFields),
    binaryFreeF fs = true → appendFDFields k fs = (appendParamFields k fs).map strEntry
  | _, .nil, _ => rfl
  | k, .cons sk v tl, h => by
      have hv : binaryFreeV v = true := by
        simp only [binaryFreeF, Bool.and_eq_true] at h
        exact h.1
      have ht : binaryFreeF tl = true := by
        simp only [binaryFreeF, Bool.and_eq_true] at h
        exact h.2
      show appendFD (k ++ "[" ++ sk ++ "]") v ++ appendFDFields k tl = _
      rw [appendFD_eq_appendParam (k ++ "[" ++ sk ++ "]") v hv, appendFDFields_eq k tl ht]
      simp [appendParamFields]
end

/-- C8: for every binary-free body, serializing in multipart (`form`)
mode produces exactly the field set of url-encoded mode — identical key
paths and identical per-key string values, each url-encoded pair
reappearing as a string-valued `FormData` entry. -/
theorem urlencoded_multipart_same_field_sets : ∀ fs : BodyFields,
    binaryFreeF fs = true →
    serializeBodyForm (.obj fs) = (serializeBodyUrl (.obj fs)).map strEntry
  | .nil, _ => rfl
  | .cons k v tl, h => by
      have hv : binaryFreeV v = true := by
        simp only [binaryFreeF, Bool.and_eq_true] at h
        exact h.1
      have ht : binaryFreeF tl = true := by
        simp only [binaryFreeF, Bool.and_eq_true] at h
        exact h.2
      show appendFD k v ++ serializeFDPairs tl = _
      have htl := urlencoded_multipart_same_field_sets tl ht
      simp only [serializeBodyForm, serializeBodyUrl] at htl
      rw [appendFD_eq_appendParam k v hv, htl]
      simp [serializeBodyUrl, serializeUrlPairs]

/-- Witness for C8 at the nested body
`(a := (b := 1), c := [1, null], d := "x")`. -/
theorem urlencoded_multipart_witness :
    binaryFreeF (.cons "a" (.vobj (.cons "b" (.vnum 1) .nil))
      (.cons "c" (.varr (.cons (.vnum 1) (.cons .vnull .nil)))
        (.cons "d" (.vstr "x") .nil))) = true ∧
    serializeBodyForm (.obj (.cons "a" (.vobj (.cons "b" (.vnum 1) .nil))
      (.cons "c" (.varr (.cons (.vnum 1) (.cons .vnull .nil)))
        (.cons "d" (.vstr "x") .nil)))) =
      (serializeBodyUrl (.obj (.cons "a" (.vobj (.cons "b" (.vnum 1) .nil))
        (.cons "c" (.varr (.cons (.vnum 1) (.cons .vnull .nil)))
          (.cons "d" (.vstr "x") .nil))))).map strEntry :=
  ⟨rfl, urlencoded_multipart_same_field_sets _ rfl⟩

/-! Helper lemmas about the request dispatcher. -/

theorem callVerb_eq (c : ApiClient) (v : Verb) (path : String)
    (params : List (String × QVal)) (body : BodyFields) (token : Option String)
    (outcome : FetchOutcome) :
    callVerb c v path params body token outcome =
      request none c.defaultTimeoutMs outcome := by
  cases v <;> rfl

theorem request_error_iff_not_success (o : Option Int) (d : Int)
    (outcome : FetchOutcome) :
    ((request o d outcome).resp.error.isSome ↔ (request o d outcome).resp.success = false) := by
  cases outcome with
  | ok res =>
      simp only [request, handleResponse]
      split
      · simp
      · split
        · simp [successEnvelope]
        · simp [failureEnvelope]
  | thrown e => simp [request, handleCatch]

/-- C1: for every verb method and every transport outcome — a response,
or any thrown error (network failure, abort, serialization or parse
exception) — the call returns a `ResponseEnvelope` (the verb dispatch is
a total function into envelopes), the `error` field is populated exactly
when `success` is false, and every thrown error is converted into a
failure envelope instead of propagating. -/
theorem verb_methods_envelope_error_iff_failure :
    (∀ (c : ApiClient) (v : Verb) (path : String) (params : List (String × QVal))
      (body : BodyFields) (token : Option String) (outcome : FetchOutcome),
      ((callVerb c v path params body token outcome).resp.error.isSome ↔
        (callVerb c v path params body token outcome).resp.success = false)) ∧
    (∀ (c : ApiClient) (v : Verb) (path : String) (params : List (String × QVal))
      (body : BodyFields) (token : Option String) (e : JsError),
      (callVerb c v path params body token (.thrown e)).resp.success = false ∧
      (callVerb c v path params body token (.thrown e)).resp.error.isSome = true) := by
  constructor
  · intro c v path params body token outcome
    rw [callVerb_eq]
    exact request_error_iff_not_success none c.defaultTimeoutMs outcome
  · intro c v path params body token e
    rw [callVerb_eq]
    constructor
    · simp [request, handleCatch]
    · simp [request, handleCatch]

/-- Witness for C1 at a concrete client, verb, and thrown transport
error. -/
theorem verb_methods_envelope_witness :
    ((callVerb (mkApi "" .json none) .post "/p" [] .nil none
      (.thrown ⟨"TypeError", "fetch failed"⟩)).resp.error.isSome ↔
      (callVerb (mkApi "" .json none) .post "/p" [] .nil none
        (.thrown ⟨"TypeError", "fetch failed"⟩)).resp.success = false) ∧
    (callVerb (mkApi "" .json none) .post "/p" [] .nil none
      (.thrown ⟨"TypeError", "fetch failed"⟩)).resp.success = false :=
  ⟨verb_methods_envelope_error_iff_failure.1 (mkApi "" .json none) .post "/p" [] .nil none
    (.thrown ⟨"TypeError", "fetch failed"⟩),
   (verb_methods_envelope_error_iff_failure.2 (mkApi "" .json none) .post "/p" [] .nil none
    ⟨"TypeError", "fetch failed"⟩).1⟩

/-- C6: a response with status 204 always yields the envelope
`(success := true, data := (), message := "No Content")` regardless of
the body content — the result does not depend on the content type or on
either body reader, so the body is never parsed. -/
theorem status_204_no_content_envelope :
    ∀ (o : Option Int) (d : Int) (res : RawResponse), res.status = 204 →
    (request o d (.ok res)).resp =
      { success := true, data := some (.jobj .nil),
        message := .jstr "No Content", error := none } := by
  intro o d res h
  simp [request, handleResponse, h]

/-- Witness for C6: a 204 response carrying a json error body and a
weird content type still produces the synthetic No Content envelope. -/
theorem status_204_witness :
    (204 : Nat) = 204 ∧
    (request none 30000 (.ok
      { status := 204, statusText := "No Content", contentType := some "text/html",
        jsonResult := .error (), textResult := .ok "<h1>ignored</h1>" })).resp =
      { success := true, data := some (.jobj .nil),
        message := .jstr "No Content", error := none } :=
  ⟨rfl, status_204_no_content_envelope none 30000 _ rfl⟩

/-- C9: a timeout timer is scheduled exactly when the effective timeout
(per-call override, else the client default) is strictly positive, and
whenever a timer was scheduled it is cleared on every exit path — for
every outcome of the plain request and of the raced request. -/
theorem timer_scheduled_iff_positive_and_released :
    (∀ (o : Option Int) (d : Int) (outcome : FetchOutcome),
      ((request o d outcome).timerScheduled = true ↔ 0 < o.getD d)) ∧
    (∀ (o : Option Int) (d : Int) (outcome : FetchOutcome),
      (request o d outcome).timerCleared = (request o d outcome).timerScheduled) ∧
    (∀ (o : Option Int) (d : Int) (ca : Option AbortEvent) (resolveAt : Nat)
      (res : RawResponse),
      (requestRaced o d ca resolveAt res).timerCleared =
        (requestRaced o d ca resolveAt res).timerScheduled) := by
  refine ⟨?_, ?_, ?_⟩
  · intro o d outcome
    simp [request]
  · intro o d outcome
    rfl
  · intro o d ca resolveAt res
    rfl

/-- Witness for C9: with an override of 5 ms over a zero default the
timer is scheduled and cleared on a thrown-error exit path. -/
theorem timer_witness :
    ((request (some 5) 0 (.thrown ⟨"TypeError", "boom"⟩)).timerScheduled = true ↔
      (0 : Int) < (some (5 : Int)).getD 0) ∧
    (request (some 5) 0 (.thrown ⟨"TypeError", "boom"⟩)).timerCleared =
      (request (some 5) 0 (.thrown ⟨"TypeError", "boom"⟩)).timerScheduled :=
  ⟨timer_scheduled_iff_positive_and_released.1 (some 5) 0 (.thrown ⟨"TypeError", "boom"⟩),
   timer_scheduled_iff_positive_and_released.2.1 (some 5) 0 (.thrown ⟨"TypeError", "boom"⟩)⟩

/-- C7: when the call is cancelled — the scheduled timeout firing
strictly before the transport resolves, or the caller-supplied signal
firing (with the default abort reason) before both — the envelope is
`(success := false, error := (status := 0, message := "Request aborted"))`,
and that message is distinct from the generic network-error message
produced for non-abort transport failures. -/
theorem cancellation_yields_request_aborted :
    (∀ (o : Option Int) (d : Int) (res : RawResponse) (resolveAt : Nat),
      0 < o.getD d → (o.getD d).toNat < resolveAt →
      (requestRaced o d none resolveAt res).resp =
        { success := false, data := none, message := .jstr "Request aborted",
          error := some { status := 0, message := .jstr "Request aborted", detail := none } }) ∧
    (∀ (o : Option Int) (d : Int) (res : RawResponse) (resolveAt t : Nat),
      (0 < o.getD d → t ≤ (o.getD d).toNat) → t < resolveAt →
      (requestRaced o d (some ⟨t, none⟩) resolveAt res).resp =
        { success := false, data := none, message := .jstr "Request aborted",
          error := some { status := 0, message := .jstr "Request aborted", detail := none } }) ∧
    (request none 1 (.thrown defaultAbortError)).resp.message ≠
      (request none 1 (.thrown ⟨"TypeError", ""⟩)).resp.message := by
  refine ⟨?_, ?_, by decide⟩
  · intro o d res resolveAt hpos hlt
    simp [requestRaced, raceOutcome, hpos, hlt, request, handleCatch, defaultAbortError]
  · intro o d res resolveAt t hle hlt
    by_cases hpos : 0 < o.getD d
    · have ht := hle hpos
      simp [requestRaced, raceOutcome, hpos, hlt, ht, request, handleCatch, defaultAbortError]
    · simp [requestRaced, raceOutcome, hpos, hlt, request, handleCatch, defaultAbortError]

/-- Witness for C7: a 5 ms effective timeout against a transport that
would resolve at 10 ms yields the abort envelope. -/
theorem cancellation_witness :
    ((0 : Int) < (some (5 : Int)).getD 30000) ∧
    (((some (5 : Int)).getD 30000).toNat < 10) ∧
    ((requestRaced (some 5) 30000 none 10
      { status := 200, statusText := "OK", contentType := some "application/json",
        jsonResult := .ok (.jobj .nil), textResult := .ok "" }).resp =
      { success := false, data := none, message := .jstr "Request aborted",
        error := some { status := 0, message := .jstr "Request aborted", detail := none } }) :=
  ⟨by decide, by decide,
   cancellation_yields_request_aborted.1 (some 5) 30000 _ 10 (by decide) (by decide)⟩

/-- C2 is refuted as literally stated: a `detail`-array element whose
`msg` field is present but an empty string yields the element's
JSON-serialized form (the code tests `msg` for truthiness, not
presence), not the present `msg` field. -/
theorem detail_msg_present_but_empty_uses_serialized_form :
    jfind (.cons "msg" (.jstr "") .nil) "msg" = some (.jstr "") ∧
    (failMessageDetail "Bad Request"
      (.jobj (.cons "detail"
        (.jarr (.cons (.jobj (.cons "msg" (.jstr "") .nil)) .nil)) .nil))).1 =
      .jstr "\x7b\"msg\":\"\"\x7d" ∧
    JVal.jstr "\x7b\"msg\":\"\"\x7d" ≠ .jstr "" :=
  ⟨by decide, by decide, by decide⟩

/-- C2 (amended): the failing-response message follows the exact
precedence over the parsed payload — (1) object payload with a `detail`
key: array detail joins per-element messages with `"; "` (string
elements direct; object elements use their `msg` field when it is
present and truthy, i.e. a non-empty string, else their serialized
form); string detail is used directly; object detail uses its `msg`
field under the same truthiness proviso, else its serialized form;
(2) else object payload with a `message` key: its string form; (3) else
string payload: its first at-most-300 characters, exactly 300 for a
longer body; (4) else the status phrase, or `"Request failed"` when
empty. The envelope carries `(status, message, detail)` under `error`
with the message mirrored at the top level, as the worked example
`(detail := [(msg := "bad field"), "other"])` shows. -/
theorem failing_message_extraction_precedence :
    (∀ (stx : String) (fs : JObj) (items : JArr), jfind fs "detail" = some (.jarr items) →
      failMessageDetail stx (.jobj fs) =
        (.jstr ("; ".intercalate (items.toList.map (fun it => jsToString (elemMsgVal it)))),
         some (.jarr items))) ∧
    (∀ s, elemMsgVal (.jstr s) = .jstr s) ∧
    (∀ (fs' : JObj) (m : String), jfind fs' "msg" = some (.jstr m) → m ≠ "" →
      elemMsgVal (.jobj fs') = .jstr m) ∧
    (∀ fs' : JObj, jfind fs' "msg" = none →
      elemMsgVal (.jobj fs') = .jstr (stringify (.jobj fs'))) ∧
    (∀ (stx : String) (fs : JObj) (s : String), jfind fs "detail" = some (.jstr s) →
      (failMessageDetail stx (.jobj fs)).1 = .jstr s) ∧
    (∀ (stx : String) (fs fs' : JObj) (m : String),
      jfind fs "detail" = some (.jobj fs') → jfind fs' "msg" = some (.jstr m) → m ≠ "" →
      (failMessageDetail stx (.jobj fs)).1 = .jstr m) ∧
    (∀ (stx : String) (fs fs' : JObj),
      jfind fs "detail" = some (.jobj fs') → jfind fs' "msg" = none →
      (failMessageDetail stx (.jobj fs)).1 = .jstr (stringify (.jobj fs'))) ∧
    (∀ (stx : String) (fs : JObj) (m : JVal), jfind fs "detail" = none →
      jfind fs "message" = some m →
      (failMessageDetail stx (.jobj fs)).1 = .jstr (jsToString m)) ∧
    (∀ (stx s : String), failMessageDetail stx (.jstr s) = (.jstr (jsSlice s 300), none)) ∧
    (∀ s : String, 300 < s.length → (jsSlice s 300).length = 300) ∧
    (∀ (stx : String) (fs : JObj), jfind fs "detail" = none → jfind fs "message" = none →
      (failMessageDetail stx (.jobj fs)).1 =
        .jstr (if stx = "" then "Request failed" else stx)) ∧
    (∀ stx : String, (failMessageDetail stx .jnull).1 =
      .jstr (if stx = "" then "Request failed" else stx)) ∧
    (∀ (status : Nat) (stx : String) (parsed : JVal),
      failureEnvelope status stx parsed =
        { success := false, data := none, message := (failMessageDetail stx parsed).1,
          error := some
            { status := status, message := (failMessageDetail stx parsed).1,
              detail := (failMessageDetail stx parsed).2 } }) ∧
    failureEnvelope 422 "Unprocessable Entity" examplePayload =
      { success := false, data := none, message := .jstr "bad field; other",
        error := some
          { status := 422, message := .jstr "bad field; other",
            detail := some (.jarr (.cons (.jobj (.cons "msg" (.jstr "bad field") .nil))
              (.cons (.jstr "other") .nil))) } } := by
  refine ⟨?_, fun _ => rfl, ?_, ?_, ?_, ?_, ?_, ?_, fun _ _ => rfl, ?_, ?_, fun _ => rfl,
    fun _ _ _ => rfl, by decide⟩
  · intro stx fs items h
    simp [failMessageDetail, h, detailArrayMessage]
  · intro fs' m hfind hne
    simp [elemMsgVal, hfind, truthy, hne]
  · intro fs' hfind
    simp [elemMsgVal, hfind]
  · intro stx fs s h
    simp [failMessageDetail, h]
  · intro stx fs fs' m hd hm hne
    simp [failMessageDetail, hd, detailObjMessage, hm, truthy, hne]
  · intro stx fs fs' hd hm
    simp [failMessageDetail, hd, detailObjMessage, hm]
  · intro stx fs m hd hm
    simp [failMessageDetail, hd, hm]
  · intro s h
    have h2 : 300 < s.data.length := h
    show (s.data.take 300).length = 300
    rw [List.length_take]
    omega
  · intro stx fs hd hm
    simp [failMessageDetail, hd, hm]

/-- Witness for C2 (amended) at a string-valued `detail` and a text body
longer than 300 characters. -/
theorem failing_message_extraction_witness :
    jfind (.cons "detail" (.jstr "oops") .nil) "detail" = some (.jstr "oops") ∧
    (failMessageDetail "Bad Request" (.jobj (.cons "detail" (.jstr "oops") .nil))).1 =
      .jstr "oops" ∧
    300 < (String.mk (List.replicate 301 'a')).length ∧
    (jsSlice (String.mk (List.replicate 301 'a')) 300).length = 300 :=
  have hlen : 300 < (String.mk (List.replicate 301 'a')).length := by
    show 300 < (List.replicate 301 'a').length
    rw [List.length_replicate]
    omega
  ⟨by decide,
   failing_message_extraction_precedence.2.2.2.2.1 "Bad Request" _ "oops" (by decide),
   hlen,
   failing_message_extraction_precedence.2.2.2.2.2.2.2.2.2.1 _ hlen⟩

/-- C10: a failing payload object with a `detail` key whose value is
`null` still takes the detail branch (JS `typeof null` is `"object"`),
and the extracted message is the serialized form of `null` — the
four-character string `"null"` — not the payload's `message` field nor
the status phrase. -/
theorem detail_null_message_is_serialized_null :
    ∀ (status : Nat) (stx : String) (fs : JObj), jfind fs "detail" = some .jnull →
      (failureEnvelope status stx (.jobj fs)).message = .jstr "null" ∧
      (failureEnvelope status stx (.jobj fs)).error =
        some { status := status, message := .jstr "null", detail := some .jnull } := by
  intro status stx fs h
  constructor <;> simp [failureEnvelope, failMessageDetail, h, detailObjMessage, stringify]

/-- Witness for C10: the payload also carries a `message` field and the
response a nonempty status phrase, both of which are ignored in favor of
`"null"`. -/
theorem detail_null_witness :
    jfind (.cons "message" (.jstr "ignored") (.cons "detail" .jnull .nil)) "detail" =
      some .jnull ∧
    (failureEnvelope 400 "Bad Request"
      (.jobj (.cons "message" (.jstr "ignored") (.cons "detail" .jnull .nil)))).message =
      .jstr "null" :=
  ⟨by decide,
   (detail_null_message_is_serialized_null 400 "Bad Request"
     (.cons "message" (.jstr "ignored") (.cons "detail" .jnull .nil)) (by decide)).1⟩
